import Mathlib

/-!
Verification of the hpcd session/authentication/execution core.

The definitions below are a shallow embedding of the Rust sources:
  * `src/hpcd/src/ssh/mod.rs`  — `SessionManager`, `ensure_connected`,
    `do_keyboard_interactive`, `exec_whitelisted`;
  * `src/hpcd/src/util/net.rs` — `lookup_first_addr` and `NetError`;
  * `src/cli/src/main.rs`      — the `send_ls` event loop and `main`'s
    exit-code behaviour.

Network effects (the SSH server, the DNS resolver, the channel message
stream) are passed in explicitly as data; each embedded function returns,
besides its result, the list of stream events it sent and a trace of the
abstract actions (lock operations, network operations) it performed, in
order.
-/

/-! ## Protocol messages (proto crate) -/

/-- `proto::Prompt`: one interactive prompt, `text` plus echo visibility. -/
structure Prompt where
  text : String
  echo : Bool
deriving DecidableEq, Repr

/-- `proto::MfaPrompt`: one keyboard-interactive round streamed to the client. -/
structure MfaPrompt where
  name : String
  instructions : String
  prompts : List Prompt
deriving DecidableEq, Repr

/-- `proto::MfaAnswer`: the client's ordered responses for one round. -/
structure MfaAnswer where
  responses : List String
deriving DecidableEq, Repr

/-- `proto::stream_event::Event`: the tagged union carried on the outbound
stream (`Stdout`, `Stderr`, `ExitCode`, `Mfa`, `Error`).  Byte payloads are
lists of byte values. -/
inductive StreamEvent where
  | stdout (data : List Nat)
  | stderr (data : List Nat)
  | exitCode (code : Int)
  | mfa (p : MfaPrompt)
  | error (msg : String)
deriving DecidableEq, Repr

/-! ## russh-side values consumed by the core -/

/-- `russh::MethodKind` (the cases the core inspects). -/
inductive MethodKind where
  | publicKey
  | password
  | keyboardInteractive
  | hostBased
deriving DecidableEq, Repr, BEq

/-- `russh::client::AuthResult` as returned by `authenticate_publickey`. -/
inductive AuthResult where
  | success
  | failure (remainingMethods : List MethodKind) (partialSuccess : Bool)
deriving DecidableEq, Repr

/-- One prompt as russh hands it to the client (`prompt`, `echo` fields). -/
structure KiPrompt where
  prompt : String
  echo : Bool
deriving DecidableEq, Repr

/-- `russh::client::KeyboardInteractiveAuthResponse`: what the server answers
on `authenticate_keyboard_interactive_start` / `..._respond`. -/
inductive KiResponse where
  | success
  | failure (remainingMethods : List MethodKind) (partialSuccess : Bool)
  | infoRequest (name : String) (instructions : String) (prompts : List KiPrompt)
deriving DecidableEq, Repr

/-- `russh::ChannelMsg` (the cases `exec_whitelisted`'s loop matches on;
`other` stands for every remaining constructor, all ignored by the loop). -/
inductive ChannelMsg where
  | data (d : List Nat)
  | extendedData (d : List Nat) (ext : Nat)
  | exitStatus (status : Nat)
  | eof
  | close
  | other
deriving DecidableEq, Repr

/-! ## Errors raised below the RPC boundary (the `anyhow!` sites) -/

/-- The distinct failure sites of `ssh/mod.rs`, one constructor per
`anyhow!`/`context` exit path. -/
inductive SshError where
  | notAllowed (label : String)
  | connectFailed
  | keyLoadFailed (path : String)
  | authRejected (remainingMethods : List MethodKind) (partialSuccess : Bool)
  | kiTransportFailed
  | clientDisconnectedDuringMfa
  | handleLost
  | openSessionFailed
  | execRequestFailed
deriving DecidableEq, Repr

/-! ## Session state (`SessionManager` fields) and abstract actions -/

/-- The connection handle: the only property the core reads is
`is_closed()`. -/
structure Handle where
  closed : Bool
deriving DecidableEq, Repr

/-- The mutable state of one `SessionManager` plus the runtime's view of its
spawned keep-alive tasks.  `handle` and `keepaliveTaskHandle` are the two
mutex-guarded fields of the Rust struct; `liveKeepaliveTasks` records the
tasks spawned by `tokio::spawn` and not yet exited — the code never aborts
one, it only overwrites the stored join handle. -/
structure SessionState where
  handle : Option Handle
  keepaliveTaskHandle : Option Nat
  liveKeepaliveTasks : List Nat
deriving DecidableEq, Repr

/-- `SshParams` from `ssh/mod.rs`. -/
structure SshParams where
  addr : String
  username : String
  identityPath : Option String
  kiSubmethods : Option String
  keepaliveSecs : Nat
deriving DecidableEq, Repr

/-- The `russh::client::Config` fields `SessionManager::new` sets. -/
structure SshConfig where
  inactivityTimeoutSecs : Option Nat
  keepaliveInterval : Option Nat
  channelBufferSize : Nat
  windowSize : Nat
deriving DecidableEq, Repr

/-- `SessionManager::new`: the configuration built from the parameters. -/
def mkConfig (p : SshParams) : SshConfig :=
  { inactivityTimeoutSecs := some 30
    keepaliveInterval := some p.keepaliveSecs
    channelBufferSize := 64
    windowSize := 1024 * 1024 }

/-- The remote world one call observes: outcome of the TCP/SSH connect, of
loading the identity file, the public-key auth verdict, the server's
keyboard-interactive responses in order, the channel-open and exec-request
outcomes, and the channel messages the remote delivers in order. -/
structure RemoteEnv where
  connectOk : Bool
  keyLoadOk : Bool
  pkResult : AuthResult
  kiResponses : List KiResponse
  openOk : Bool
  execOk : Bool
  channelMsgs : List ChannelMsg
deriving DecidableEq, Repr

/-- Abstract actions a call performs, in program order: lock operations on
the session mutex and the network/file operations between them. -/
inductive CallAction where
  | lockAcquire
  | lockRelease
  | connect
  | loadKey
  | pkAuth
  | kiStart
  | spawnKeepalive
  | openSession
  | execRequest
  | chanRead
  | chanEof
  | chanClose
deriving DecidableEq, Repr

/-- One step of interaction on the MFA rendezvous: an event sent on the
outbound stream, or one answer consumed from the inbound stream. -/
inductive Exchange where
  | emit (e : StreamEvent)
  | consume (a : MfaAnswer)
deriving DecidableEq, Repr

/-! ## Command whitelist (`exec_whitelisted`, lines 239–244) -/

/-- The compiled-in whitelist: the `match command` at the top of
`exec_whitelisted`.  Exact string match; each allowed label maps to the
literal command string. -/
def whitelist (label : String) : Option String :=
  if label = "ls" then some "ls"
  else if label = "uname -a" then some "uname -a"
  else if label = "w" then some "w"
  else none

/-! ## Keyboard-interactive loop (`do_keyboard_interactive`) -/

/-- Translation of a russh `InfoRequest` into the proto `MfaPrompt`
(the `prompts.into_iter().map(...)` at lines 195–205). -/
def mkMfaPrompt (name instructions : String) (ps : List KiPrompt) : MfaPrompt :=
  { name := name
    instructions := instructions
    prompts := ps.map fun p => { text := p.prompt, echo := p.echo } }

/-- `do_keyboard_interactive`: the loop over the server's responses.  The
first list element is what `authenticate_keyboard_interactive_start`
returned; each later element is what the corresponding
`authenticate_keyboard_interactive_respond` returned.  An exhausted response
list models a transport failure of start/respond (the `context(..)?` exits).
Returns the ordered exchanges on the streams and the loop's outcome. -/
def doKeyboardInteractive :
    List KiResponse → List MfaAnswer → List Exchange × Except SshError Unit
  | [], _ => ([], .error .kiTransportFailed)
  | KiResponse.success :: _, _ => ([], .ok ())
  | KiResponse.failure rm ps :: _, _ => ([], .error (.authRejected rm ps))
  | KiResponse.infoRequest n i ps :: _, [] =>
      ([Exchange.emit (StreamEvent.mfa (mkMfaPrompt n i ps))],
        .error .clientDisconnectedDuringMfa)
  | KiResponse.infoRequest n i ps :: rest, a :: answers =>
      let r := doKeyboardInteractive rest answers
      (Exchange.emit (StreamEvent.mfa (mkMfaPrompt n i ps)) :: Exchange.consume a :: r.1,
        r.2)

/-- The stream events among a list of exchanges. -/
def sentEvents (tr : List Exchange) : List StreamEvent :=
  tr.filterMap fun x => match x with
    | Exchange.emit e => some e
    | Exchange.consume _ => none

/-- The answers consumed from the inbound stream, in order. -/
def consumedAnswers (tr : List Exchange) : List MfaAnswer :=
  tr.filterMap fun x => match x with
    | Exchange.emit _ => none
    | Exchange.consume a => some a

/-! ## `ensure_connected` -/

/-- The `needs_connect` test at lines 73–77. -/
def needsConnect : Option Handle → Bool
  | none => true
  | some h => h.closed

deriving instance DecidableEq for Except

/-- What `ensure_connected` produces: the session state on return, the
exchanges performed on the call's streams, the action trace of the work done
under the session mutex, and the outcome. -/
structure EnsureOut where
  state : SessionState
  transcript : List Exchange
  trace : List CallAction
  result : Except SshError Unit
deriving DecidableEq, Repr

/-- `ensure_connected` (lines 65–157).  The surrounding mutex acquisition and
release are recorded by the caller (`execWhitelisted`); `trace` here lists
the actions performed while that lock is held.  A no-op when a live,
non-closed handle exists; otherwise: connect, then public-key auth first when
an identity path is configured (falling back to keyboard-interactive exactly
when the failure is partial and keyboard-interactive remains), else
keyboard-interactive directly; on success the new handle is stored and a
keep-alive task is spawned whenever the config carries a keep-alive
interval. -/
def ensureConnected (p : SshParams) (cfg : SshConfig) (env : RemoteEnv)
    (s : SessionState) (answers : List MfaAnswer) (freshTaskId : Nat) : EnsureOut :=
  if needsConnect s.handle = false then
    { state := s, transcript := [], trace := [], result := .ok () }
  else if env.connectOk = false then
    { state := s, transcript := [], trace := [CallAction.connect],
      result := .error .connectFailed }
  else
    let auth : List Exchange × List CallAction × Except SshError Unit :=
      match p.identityPath with
      | some path =>
        if env.keyLoadOk = false then
          ([], [CallAction.loadKey], .error (.keyLoadFailed path))
        else
          match env.pkResult with
          | AuthResult.success => ([], [CallAction.loadKey, CallAction.pkAuth], .ok ())
          | AuthResult.failure rm ps =>
            if ps && rm.contains MethodKind.keyboardInteractive then
              let r := doKeyboardInteractive env.kiResponses answers
              (r.1, [CallAction.loadKey, CallAction.pkAuth, CallAction.kiStart], r.2)
            else
              ([], [CallAction.loadKey, CallAction.pkAuth], .error (.authRejected rm ps))
      | none =>
        let r := doKeyboardInteractive env.kiResponses answers
        (r.1, [CallAction.kiStart], r.2)
    match auth with
    | (tr, acts, Except.error e) =>
      { state := s, transcript := tr, trace := CallAction.connect :: acts,
        result := .error e }
    | (tr, acts, Except.ok _) =>
      let spawn := cfg.keepaliveInterval.isSome
      { state :=
          { handle := some { closed := false }
            keepaliveTaskHandle :=
              if spawn then some freshTaskId else s.keepaliveTaskHandle
            liveKeepaliveTasks :=
              if spawn then s.liveKeepaliveTasks ++ [freshTaskId]
              else s.liveKeepaliveTasks }
        transcript := tr
        trace := CallAction.connect :: acts ++ (if spawn then [CallAction.spawnKeepalive] else [])
        result := .ok () }

/-! ## Keep-alive supervisor (lines 133–150) -/

/-- One iteration of a spawned keep-alive loop, as a function of the shared
handle cell it captured: exit when the current handle is closed, probe when
it is open, idle (loop again without probing) when the cell is empty.  The
closure captures only the shared `Arc` of the handle, so every spawned loop
— whichever connect spawned it — steps on the *current* handle. -/
inductive KeepaliveAction where
  | exit
  | probe
  | idle
deriving DecidableEq, Repr

/-- The supervisor's step function. -/
def keepaliveStep : Option Handle → KeepaliveAction
  | some h => if h.closed then KeepaliveAction.exit else KeepaliveAction.probe
  | none => KeepaliveAction.idle

/-! ## Channel output pump (`exec_whitelisted`, lines 263–299) -/

/-- `u32 as i32`: the cast applied to `exit_status`. -/
def i32ofU32 (n : Nat) : Int :=
  if n % 2 ^ 32 < 2 ^ 31 then ((n % 2 ^ 32 : Nat) : Int)
  else ((n % 2 ^ 32 : Nat) : Int) - 2 ^ 32

/-- The `while let Some(msg) = chan.wait()` loop: events forwarded per
channel message.  `Data` becomes `Stdout`; `ExtendedData` with ext type 1
becomes `Stderr`; `ExitStatus` becomes `ExitCode`; `Close` breaks the loop;
`Eof` and everything else is ignored. -/
def pumpEvents : List ChannelMsg → List StreamEvent
  | [] => []
  | ChannelMsg.data d :: rest => StreamEvent.stdout d :: pumpEvents rest
  | ChannelMsg.extendedData d ext :: rest =>
      if ext = 1 then StreamEvent.stderr d :: pumpEvents rest else pumpEvents rest
  | ChannelMsg.exitStatus s :: rest =>
      StreamEvent.exitCode (i32ofU32 s) :: pumpEvents rest
  | ChannelMsg.eof :: rest => pumpEvents rest
  | ChannelMsg.close :: _ => []
  | ChannelMsg.other :: rest => pumpEvents rest

/-- The channel messages the loop actually consumes (everything up to and
including the first `Close`). -/
def consumedMsgs : List ChannelMsg → List ChannelMsg
  | [] => []
  | ChannelMsg.close :: _ => [ChannelMsg.close]
  | m :: rest => m :: consumedMsgs rest

/-! ## `exec_whitelisted` (lines 232–306) -/

/-- What one `exec_whitelisted` call produces: final session state, the
events sent on the outbound stream, the full action trace (lock operations
included), and the outcome. -/
structure ExecOut where
  state : SessionState
  events : List StreamEvent
  trace : List CallAction
  result : Except SshError Unit
deriving DecidableEq, Repr

/-- `exec_whitelisted`: whitelist check first (rejecting with no further
work), then `ensure_connected` under the session mutex, then — after
re-acquiring the mutex — channel open, exec request, the output pump, and
the best-effort eof/close. -/
def execWhitelisted (p : SshParams) (cfg : SshConfig) (env : RemoteEnv)
    (s : SessionState) (command : String) (answers : List MfaAnswer)
    (freshTaskId : Nat) : ExecOut :=
  match whitelist command with
  | none =>
    { state := s, events := [], trace := [], result := .error (.notAllowed command) }
  | some _ =>
    let e := ensureConnected p cfg env s answers freshTaskId
    let baseTrace := CallAction.lockAcquire :: (e.trace ++ [CallAction.lockRelease])
    let baseEvents := sentEvents e.transcript
    match e.result with
    | Except.error err =>
      { state := e.state, events := baseEvents, trace := baseTrace,
        result := .error err }
    | Except.ok _ =>
      match e.state.handle with
      | none =>
        { state := e.state, events := baseEvents,
          trace := baseTrace ++ [CallAction.lockAcquire, CallAction.lockRelease],
          result := .error .handleLost }
      | some _ =>
        if env.openOk = false then
          { state := e.state, events := baseEvents,
            trace := baseTrace ++
              [CallAction.lockAcquire, CallAction.openSession, CallAction.lockRelease],
            result := .error .openSessionFailed }
        else if env.execOk = false then
          { state := e.state, events := baseEvents,
            trace := baseTrace ++
              [CallAction.lockAcquire, CallAction.openSession, CallAction.execRequest,
                CallAction.lockRelease],
            result := .error .execRequestFailed }
        else
          { state := e.state
            events := baseEvents ++ pumpEvents env.channelMsgs
            trace := baseTrace ++
              [CallAction.lockAcquire, CallAction.openSession, CallAction.execRequest] ++
              (consumedMsgs env.channelMsgs).map (fun _ => CallAction.chanRead) ++
              [CallAction.chanEof, CallAction.chanClose, CallAction.lockRelease]
            result := .ok () }

/-! ## Address resolver (`util/net.rs`) -/

/-- The part of `std::io::Error` the code inspects: its kind (`NotFound`
versus anything else) plus an opaque payload. -/
inductive IoErrorKind where
  | notFound
  | otherKind
deriving DecidableEq, Repr

/-- A resolver-level I/O error. -/
structure ResolverError where
  kind : IoErrorKind
  message : String
deriving DecidableEq, Repr

/-- `NetError` from `util/net.rs`. -/
inductive NetError where
  | dnsNotFound (host : String)
  | resolve (e : ResolverError)
  | noAddrs (host : String)
deriving DecidableEq, Repr

/-- A resolved network endpoint. -/
structure SockAddr where
  ip : String
  port : Nat
deriving DecidableEq, Repr

/-- `lookup_first_addr`: the single `lookup_host` outcome (an error or the
ordered address list) is passed in; errors of kind `NotFound` become
`DnsNotFound host`, other errors are wrapped as `Resolve`, an empty address
list becomes `NoAddrs host`, and otherwise the first address is returned. -/
def lookupFirstAddr (host : String) (_port : Nat)
    (resolved : Except ResolverError (List SockAddr)) : Except NetError SockAddr :=
  match resolved with
  | Except.error e =>
    match e.kind with
    | IoErrorKind.notFound => .error (NetError.dnsNotFound host)
    | IoErrorKind.otherKind => .error (NetError.resolve e)
  | Except.ok addrs =>
    match addrs with
    | [] => .error (NetError.noAddrs host)
    | a :: _ => .ok a

/-! ## CLI event loop (`cli/src/main.rs`, `send_ls` and `main`) -/

/-- One item of the inbound stream as the CLI's loop sees it: a gRPC-level
error status, or a `StreamEvent` whose payload may be absent. -/
inductive LsItem where
  | ok (ev : Option StreamEvent)
  | errStatus (status : String)
deriving DecidableEq, Repr

/-- How `send_ls`'s loop ended: `exitVal v` is the loop's `exit_code`
variable at exit, `localError` is a `bail!` raised inside the loop (a
non-echoed prompt without a secure-input backend). -/
inductive LsOutcome where
  | exitVal (code : Option Int)
  | localError (msg : String)
deriving DecidableEq, Repr

/-- `prompt_value` succeeds only for echoed prompts; a non-echoed prompt hits
`bail!("Method not supported")`.  A round succeeds locally when every prompt
is echoed. -/
def promptRoundOk (p : MfaPrompt) : Bool :=
  p.prompts.all fun pr => pr.echo

/-- The `while let Some(item) = inbound.next()` loop of `send_ls`:
`Stdout`/`Stderr`/empty events pass through, `ExitCode c` stores `c` and
breaks, `Error` stores 1 and breaks, a stream status error stores 1 and
breaks, an `Mfa` round prompts (failing locally on a non-echoed prompt) and
sends the answers (breaking with the current `exit_code`, still unset, when
the server side is gone).  `sends` lists the outcomes of the successive
answer sends; an exhausted list stands for sends that succeed. -/
def runLs : List LsItem → List Bool → LsOutcome
  | [], _ => .exitVal none
  | LsItem.ok none :: rest, sends => runLs rest sends
  | LsItem.ok (some (StreamEvent.stdout _)) :: rest, sends => runLs rest sends
  | LsItem.ok (some (StreamEvent.stderr _)) :: rest, sends => runLs rest sends
  | LsItem.ok (some (StreamEvent.exitCode c)) :: _, _ => .exitVal (some c)
  | LsItem.ok (some (StreamEvent.mfa p)) :: rest, sends =>
      if promptRoundOk p = false then .localError "Method not supported"
      else
        match sends with
        | [] => runLs rest []
        | sOk :: sends' => if sOk then runLs rest sends' else .exitVal none
  | LsItem.ok (some (StreamEvent.error _)) :: _, _ => .exitVal (some 1)
  | LsItem.errStatus _ :: _, _ => .exitVal (some 1)

/-- The `match exit_code` at the end of `send_ls`: `None` and `Some 0` return
`Ok(())`, a nonzero code `bail!`s, and a local error propagates. -/
def sendLsReturn (o : LsOutcome) : Except String Unit :=
  match o with
  | LsOutcome.localError m => .error m
  | LsOutcome.exitVal none => .ok ()
  | LsOutcome.exitVal (some c) =>
      if c = 0 then .ok () else .error "received exit code"

/-- `main` returns `send_ls`'s `anyhow::Result`; a Rust `main` returning
`Err` makes the process exit with status 1, `Ok` with status 0. -/
def mainExitStatus (r : Except String Unit) : Int :=
  match r with
  | Except.ok _ => 0
  | Except.error _ => 1

/-- The CLI process's exit status for one `Ls` call, as a function of the
stream items received and the answer-send outcomes. -/
def cliExitCode (items : List LsItem) (sends : List Bool) : Int :=
  mainExitStatus (sendLsReturn (runLs items sends))

/-- Stream items that `send_ls`'s loop passes through without touching
`exit_code` or the inbound side: `Stdout`, `Stderr`, and empty events. -/
def isPassthroughItem : LsItem → Bool
  | LsItem.ok none => true
  | LsItem.ok (some (StreamEvent.stdout _)) => true
  | LsItem.ok (some (StreamEvent.stderr _)) => true
  | _ => false

/-! ## Lock semantics for concurrent calls

Two concurrent `exec_whitelisted` calls on the same `SessionManager` contend
on the session mutex.  A schedule of the two calls is an order-preserving
merge of their action traces, tagged by caller; it is admissible when every
`lockAcquire` happens while the mutex is free and every `lockRelease` is by
the current owner. -/

/-- The two concurrent callers. -/
inductive Tid where
  | a
  | b
deriving DecidableEq, Repr

/-- Tag every action of a trace with its caller. -/
def tagTrace (t : Tid) (tr : List CallAction) : List (Tid × CallAction) :=
  tr.map fun x => (t, x)

/-- Order-preserving merge of two tagged traces. -/
inductive Merge : List (Tid × CallAction) → List (Tid × CallAction) →
    List (Tid × CallAction) → Prop where
  | nil : Merge [] [] []
  | left {x xs ys zs} : Merge xs ys zs → Merge (x :: xs) ys (x :: zs)
  | right {y xs ys zs} : Merge xs ys zs → Merge xs (y :: ys) (y :: zs)

/-- Admissibility of a merged schedule with respect to the session mutex:
`o` is the current owner.  Acquire requires the mutex free; release requires
ownership; other actions do not synchronize. -/
inductive LockValid : Option Tid → List (Tid × CallAction) → Prop where
  | nil (o : Option Tid) : LockValid o []
  | acq (t : Tid) (rest : List (Tid × CallAction)) :
      LockValid (some t) rest → LockValid none ((t, CallAction.lockAcquire) :: rest)
  | rel (t : Tid) (rest : List (Tid × CallAction)) :
      LockValid none rest → LockValid (some t) ((t, CallAction.lockRelease) :: rest)
  | oth (t : Tid) (x : CallAction) (o : Option Tid) (rest : List (Tid × CallAction)) :
      x ≠ CallAction.lockAcquire → x ≠ CallAction.lockRelease →
      LockValid o rest → LockValid o ((t, x) :: rest)

/-- A complete critical section: one acquire, lock-free work, one release. -/
def IsCS (cs : List CallAction) : Prop :=
  ∃ mid, cs = CallAction.lockAcquire :: mid ++ [CallAction.lockRelease] ∧
    CallAction.lockAcquire ∉ mid ∧ CallAction.lockRelease ∉ mid

/-- Order-preserving merge of two callers' critical sections as atomic
blocks. -/
inductive BlockMerge : List (List CallAction) → List (List CallAction) →
    List (Tid × List CallAction) → Prop where
  | nil : BlockMerge [] [] []
  | left {c xs ys zs} : BlockMerge xs ys zs → BlockMerge (c :: xs) ys ((Tid.a, c) :: zs)
  | right {c xs ys zs} : BlockMerge xs ys zs → BlockMerge xs (c :: ys) ((Tid.b, c) :: zs)

/-- Flatten tagged blocks back to a schedule. -/
def flattenTagged (bs : List (Tid × List CallAction)) : List (Tid × CallAction) :=
  bs.flatMap fun b => tagTrace b.1 b.2

/-! ## Theorems -/

/-- Scratch checks of the embedding on concrete inputs. -/
example : whitelist "ls" = some "ls" := by decide
example : whitelist "ls " = none := by decide
example : whitelist "ls; rm -rf /" = none := by decide

/-- **C10.** The compiled-in whitelist accepts exactly the labels `"ls"`,
`"uname -a"` and `"w"`, and maps every accepted label to the identical
command string. -/
theorem whitelist_is_identity_on_three_labels (label cmd : String) :
    whitelist label = some cmd ↔
      cmd = label ∧ (label = "ls" ∨ label = "uname -a" ∨ label = "w") := by
  unfold whitelist
  by_cases h1 : label = "ls"
  · subst h1; simp [eq_comm]
  · by_cases h2 : label = "uname -a"
    · subst h2; simp [eq_comm]
    · by_cases h3 : label = "w"
      · subst h3; simp [eq_comm]
      · simp [h1, h2, h3]

/-- Helper: a label outside the three whitelist entries is mapped to
`none`. -/
theorem whitelist_eq_none_of_not_mem (label : String)
    (h : label ∉ (["ls", "uname -a", "w"] : List String)) :
    whitelist label = none := by
  simp only [List.mem_cons, List.mem_singleton, not_or] at h
  obtain ⟨h1, h2, h3⟩ := h
  unfold whitelist
  simp [h1, h2, h3]

/-- **C1.** A label that is not one of the fixed whitelist entries is
rejected with `NotAllowed(label)` carrying the label verbatim, before any
work: the call performs no actions at all (no connect, no authentication, no
channel open — the action trace is empty), emits no events, and leaves the
session state untouched.  The match is exact, with no sanitizing. -/
theorem execWhitelisted_rejects_before_network (p : SshParams) (cfg : SshConfig)
    (env : RemoteEnv) (s : SessionState) (command : String)
    (answers : List MfaAnswer) (freshTaskId : Nat)
    (h : command ∉ (["ls", "uname -a", "w"] : List String)) :
    execWhitelisted p cfg env s command answers freshTaskId =
      { state := s, events := [], trace := [],
        result := .error (.notAllowed command) } := by
  unfold execWhitelisted
  rw [whitelist_eq_none_of_not_mem command h]

/-- **C1 witness.** The shell-metacharacter label `"ls; rm -rf /"` is
rejected exactly so, with an empty action trace. -/
theorem execWhitelisted_rejects_witness :
    ("ls; rm -rf /" : String) ∉ (["ls", "uname -a", "w"] : List String) ∧
      execWhitelisted
        { addr := "h:22", username := "u", identityPath := none,
          kiSubmethods := none, keepaliveSecs := 5 }
        (mkConfig
          { addr := "h:22", username := "u", identityPath := none,
            kiSubmethods := none, keepaliveSecs := 5 })
        { connectOk := true, keyLoadOk := true, pkResult := AuthResult.success,
          kiResponses := [], openOk := true, execOk := true, channelMsgs := [] }
        { handle := none, keepaliveTaskHandle := none, liveKeepaliveTasks := [] }
        "ls; rm -rf /" [] 0 =
        { state := { handle := none, keepaliveTaskHandle := none,
                     liveKeepaliveTasks := [] },
          events := [], trace := [],
          result := .error (.notAllowed "ls; rm -rf /") } :=
  ⟨by decide, execWhitelisted_rejects_before_network _ _ _ _ _ _ _ (by decide)⟩

/-! ### C2: terminal events of the output pump -/

/-- Channel messages whose handling emits no stream event: `Eof`, `Close`,
the ignored remainder, and extended data of a type other than stderr. -/
def emitsNoEvent : ChannelMsg → Bool
  | ChannelMsg.data _ => false
  | ChannelMsg.extendedData _ ext => decide (ext ≠ 1)
  | ChannelMsg.exitStatus _ => false
  | ChannelMsg.eof => true
  | ChannelMsg.close => true
  | ChannelMsg.other => true

/-- Channel messages that are an `ExitStatus`. -/
def isExitStatusMsg : ChannelMsg → Bool
  | ChannelMsg.exitStatus _ => true
  | _ => false

/-- The pump distributes over an append whose prefix contains no `Close`. -/
theorem pumpEvents_append_of_no_close (pre rest : List ChannelMsg)
    (h : ChannelMsg.close ∉ pre) :
    pumpEvents (pre ++ rest) = pumpEvents pre ++ pumpEvents rest := by
  induction pre with
  | nil => simp [pumpEvents]
  | cons m pre ih =>
    have hm : m ≠ ChannelMsg.close := fun he => h (he ▸ List.mem_cons_self m pre)
    have hpre : ChannelMsg.close ∉ pre := fun hc => h (List.mem_cons_of_mem m hc)
    cases m with
    | data d => simp [pumpEvents, ih hpre]
    | extendedData d ext =>
      by_cases hx : ext = 1 <;> simp [pumpEvents, hx, ih hpre]
    | exitStatus s => simp [pumpEvents, ih hpre]
    | eof => simp [pumpEvents, ih hpre]
    | close => exact absurd rfl hm
    | other => simp [pumpEvents, ih hpre]

/-- A tail of only non-emitting messages produces no events. -/
theorem pumpEvents_nil_of_emitsNoEvent (l : List ChannelMsg)
    (h : ∀ m ∈ l, emitsNoEvent m = true) :
    pumpEvents l = [] := by
  induction l with
  | nil => rfl
  | cons m l ih =>
    have hm := h m (List.mem_cons_self m l)
    have hl : ∀ x ∈ l, emitsNoEvent x = true := fun x hx => h x (List.mem_cons_of_mem m hx)
    cases m with
    | data d => simp [emitsNoEvent] at hm
    | extendedData d ext =>
      simp only [emitsNoEvent, decide_eq_true_eq] at hm
      simp [pumpEvents, hm, ih hl]
    | exitStatus s => simp [emitsNoEvent] at hm
    | eof => simp [pumpEvents, ih hl]
    | close => simp [pumpEvents]
    | other => simp [pumpEvents, ih hl]

/-- No `ExitCode` event comes from a message list without `ExitStatus`. -/
theorem no_exitCode_of_no_exitStatus (l : List ChannelMsg)
    (h : ∀ m ∈ l, isExitStatusMsg m = false) (c : Int) :
    StreamEvent.exitCode c ∉ pumpEvents l := by
  induction l with
  | nil => simp [pumpEvents]
  | cons m l ih =>
    have hm := h m (List.mem_cons_self m l)
    have hl : ∀ x ∈ l, isExitStatusMsg x = false :=
      fun x hx => h x (List.mem_cons_of_mem m hx)
    cases m with
    | data d => simp [pumpEvents]; exact fun he => absurd he (ih hl)
    | extendedData d ext =>
      by_cases hx : ext = 1
      · simp [pumpEvents, hx]; exact fun he => absurd he (ih hl)
      · simp [pumpEvents, hx]; exact ih hl
    | exitStatus s => simp [isExitStatusMsg] at hm
    | eof => simp [pumpEvents]; exact ih hl
    | close => simp [pumpEvents]
    | other => simp [pumpEvents]; exact ih hl

/-- **C2 (amended).** The pump has no terminal-event cutoff of its own: it
stops only at `Close` or at the end of the message stream.  Provided the
remote sends `ExitStatus` exactly once, not preceded by a `Close` and with
no event-producing message after it, the call emits exactly one `ExitCode`
event and it is the last event of the stream. -/
theorem pump_exit_code_terminal_when_remote_wellbehaved
    (pre post : List ChannelMsg) (s : Nat)
    (hclose : ChannelMsg.close ∉ pre)
    (hpre : ∀ m ∈ pre, isExitStatusMsg m = false)
    (hpost : ∀ m ∈ post, emitsNoEvent m = true) :
    pumpEvents (pre ++ ChannelMsg.exitStatus s :: post) =
      pumpEvents pre ++ [StreamEvent.exitCode (i32ofU32 s)] ∧
    ∀ c, StreamEvent.exitCode c ∉ pumpEvents pre := by
  constructor
  · rw [pumpEvents_append_of_no_close pre _ hclose]
    have : pumpEvents (ChannelMsg.exitStatus s :: post) =
        [StreamEvent.exitCode (i32ofU32 s)] := by
      simp [pumpEvents, pumpEvents_nil_of_emitsNoEvent post hpost]
    rw [this]
  · exact fun c => no_exitCode_of_no_exitStatus pre hpre c

/-- **C2 (amended) witness** at a concrete stream: one data chunk, the exit
status, then eof. -/
theorem pump_exit_code_terminal_witness :
    pumpEvents ([ChannelMsg.data [1]] ++ ChannelMsg.exitStatus 0 :: [ChannelMsg.eof]) =
      pumpEvents [ChannelMsg.data [1]] ++ [StreamEvent.exitCode (i32ofU32 0)] ∧
    ∀ c, StreamEvent.exitCode c ∉ pumpEvents [ChannelMsg.data [1]] :=
  pump_exit_code_terminal_when_remote_wellbehaved [ChannelMsg.data [1]]
    [ChannelMsg.eof] 0 (by decide) (by decide) (by decide)

/-- **C2 counterexample.** The loop does not stop after emitting `ExitCode`:
with a live connection and the remote delivering `ExitStatus 0`, then a data
chunk, then `Close`, the call emits a `Stdout` event *after* the `ExitCode`
event. -/
theorem exec_emits_event_after_exitCode :
    (execWhitelisted
      { addr := "h:22", username := "u", identityPath := none,
        kiSubmethods := none, keepaliveSecs := 5 }
      (mkConfig
        { addr := "h:22", username := "u", identityPath := none,
          kiSubmethods := none, keepaliveSecs := 5 })
      { connectOk := true, keyLoadOk := true, pkResult := AuthResult.success,
        kiResponses := [],
        openOk := true, execOk := true,
        channelMsgs := [ChannelMsg.exitStatus 0, ChannelMsg.data [120],
          ChannelMsg.close] }
      { handle := some { closed := false }, keepaliveTaskHandle := some 1,
        liveKeepaliveTasks := [1] }
      "ls" [] 2).events =
      [StreamEvent.exitCode 0, StreamEvent.stdout [120]] := by decide

/-! ### C3/C4: the keyboard-interactive rendezvous -/

/-- `sentEvents`/`consumedAnswers` unfolding lemmas. -/
theorem consumedAnswers_emit (e : StreamEvent) (l : List Exchange) :
    consumedAnswers (Exchange.emit e :: l) = consumedAnswers l := by
  simp [consumedAnswers]

theorem consumedAnswers_consume (a : MfaAnswer) (l : List Exchange) :
    consumedAnswers (Exchange.consume a :: l) = a :: consumedAnswers l := by
  simp [consumedAnswers]

/-- **C3 counterexample.** A challenge with two prompts answered by a
one-response `MfaAnswer` is not rejected: the single response is forwarded
verbatim and — the server accepting — the authentication attempt returns
success rather than failing with a disconnected-class error. -/
theorem doKI_accepts_mismatched_answer_count :
    (MfaAnswer.mk ["a"]).responses.length ≠
      ([KiPrompt.mk "p1" true, KiPrompt.mk "p2" true] : List KiPrompt).length ∧
    doKeyboardInteractive
      [KiResponse.infoRequest "n" "i" [KiPrompt.mk "p1" true, KiPrompt.mk "p2" true],
        KiResponse.success]
      [MfaAnswer.mk ["a"]] =
      ([Exchange.emit (StreamEvent.mfa
          (mkMfaPrompt "n" "i" [KiPrompt.mk "p1" true, KiPrompt.mk "p2" true])),
        Exchange.consume (MfaAnswer.mk ["a"])], Except.ok ()) := by
  constructor
  · decide
  · rfl

/-- **C3 (amended).** The negotiator performs no response-count validation:
the outcome of a round never depends on the challenge's prompt list (so a
count mismatch is not detected locally), and the answers consumed are
forwarded as an unmodified prefix of the inbound stream — never truncated,
padded, or edited.  Only exhaustion of the inbound stream yields the
client-disconnected failure. -/
theorem doKI_no_count_validation :
    (∀ (n i : String) (ps ps' : List KiPrompt) (rest : List KiResponse)
        (answers : List MfaAnswer),
      (doKeyboardInteractive (KiResponse.infoRequest n i ps :: rest) answers).2 =
        (doKeyboardInteractive (KiResponse.infoRequest n i ps' :: rest) answers).2) ∧
    (∀ (rs : List KiResponse) (answers : List MfaAnswer),
      ∃ k, consumedAnswers (doKeyboardInteractive rs answers).1 = answers.take k) := by
  constructor
  · intro n i ps ps' rest answers
    cases answers with
    | nil => rfl
    | cons a answers => rfl
  · intro rs
    induction rs with
    | nil => intro answers; exact ⟨0, by simp [doKeyboardInteractive, consumedAnswers]⟩
    | cons r rest ih =>
      intro answers
      cases r with
      | success => exact ⟨0, by simp [doKeyboardInteractive, consumedAnswers]⟩
      | failure rm ps => exact ⟨0, by simp [doKeyboardInteractive, consumedAnswers]⟩
      | infoRequest n i ps =>
        cases answers with
        | nil => exact ⟨0, by simp [doKeyboardInteractive, consumedAnswers]⟩
        | cons a answers =>
          obtain ⟨k, hk⟩ := ih answers
          refine ⟨k + 1, ?_⟩
          simp only [doKeyboardInteractive, consumedAnswers_emit,
            consumedAnswers_consume, hk, List.take_succ_cons]

/-- Strict alternation of a rendezvous transcript: challenge/answer pairs,
possibly ending in one unanswered challenge. -/
inductive Alternates : List Exchange → Prop where
  | nil : Alternates []
  | single (e : StreamEvent) : Alternates [Exchange.emit e]
  | pair (e : StreamEvent) (a : MfaAnswer) (rest : List Exchange) :
      Alternates rest → Alternates (Exchange.emit e :: Exchange.consume a :: rest)

/-- **C4.** The keyboard-interactive loop is a strict round-trip: its
transcript alternates — one `Mfa` event, then exactly one consumed answer —
with every emitted event an `Mfa` challenge; the loop ends with the
client-disconnected failure exactly when the inbound stream was exhausted
with a challenge still outstanding (the transcript's last element is an
unanswered emit); and it returns success only when, after some number of
challenge rounds each matched by an available answer, the server reported
`Success`. -/
theorem doKI_strict_round_trip (rs : List KiResponse) (answers : List MfaAnswer) :
    Alternates (doKeyboardInteractive rs answers).1 ∧
    (∀ e, Exchange.emit e ∈ (doKeyboardInteractive rs answers).1 →
      ∃ p, e = StreamEvent.mfa p) ∧
    ((doKeyboardInteractive rs answers).2 = .error .clientDisconnectedDuringMfa ↔
      ∃ e, (doKeyboardInteractive rs answers).1.getLast? = some (Exchange.emit e)) ∧
    ((doKeyboardInteractive rs answers).2 = .ok () →
      ∃ k, k ≤ answers.length ∧
        (∀ r ∈ rs.take k, ∃ n i ps, r = KiResponse.infoRequest n i ps) ∧
        (rs.drop k).head? = some KiResponse.success) := by
  induction rs generalizing answers with
  | nil =>
    refine ⟨Alternates.nil, ?_, ?_, ?_⟩
    · intro e he; simp [doKeyboardInteractive] at he
    · simp [doKeyboardInteractive]
    · simp [doKeyboardInteractive]
  | cons r rest ih =>
    cases r with
    | success =>
      refine ⟨Alternates.nil, ?_, ?_, ?_⟩
      · intro e he; simp [doKeyboardInteractive] at he
      · simp [doKeyboardInteractive]
      · intro _
        exact ⟨0, Nat.zero_le _, by simp, by simp⟩
    | failure rm ps =>
      refine ⟨Alternates.nil, ?_, ?_, ?_⟩
      · intro e he; simp [doKeyboardInteractive] at he
      · simp [doKeyboardInteractive]
      · simp [doKeyboardInteractive]
    | infoRequest n i ps =>
      cases answers with
      | nil =>
        refine ⟨Alternates.single _, ?_, ?_, ?_⟩
        · intro e he
          simp [doKeyboardInteractive] at he
          exact ⟨_, he⟩
        · simp [doKeyboardInteractive]
        · simp [doKeyboardInteractive]
      | cons a answers =>
        obtain ⟨ih1, ih2, ih3, ih4⟩ := ih answers
        refine ⟨Alternates.pair _ _ _ ih1, ?_, ?_, ?_⟩
        · intro e he
          simp only [doKeyboardInteractive, List.mem_cons] at he
          rcases he with he | he | he
          · exact ⟨_, by injection he⟩
          · exact absurd he (by simp)
          · exact ih2 e he
        · simp only [doKeyboardInteractive]
          rw [ih3]
          constructor
          · rintro ⟨e, he⟩
            refine ⟨e, ?_⟩
            rcases hrest : (doKeyboardInteractive rest answers).1 with _ | ⟨x, l⟩
            · rw [hrest] at he; simp at he
            · rw [hrest] at he
              rw [List.getLast?_cons_cons, List.getLast?_cons_cons]
              exact he
          · rintro ⟨e, he⟩
            refine ⟨e, ?_⟩
            rcases hrest : (doKeyboardInteractive rest answers).1 with _ | ⟨x, l⟩
            · rw [hrest] at he
              rw [List.getLast?_cons_cons] at he
              simp at he
            · rw [hrest] at he
              rw [List.getLast?_cons_cons, List.getLast?_cons_cons] at he
              exact he
        · simp only [doKeyboardInteractive]
          intro hok
          obtain ⟨k, hk, htake, hdrop⟩ := ih4 hok
          refine ⟨k + 1, Nat.succ_le_succ hk, ?_, ?_⟩
          · intro r hr
            simp only [List.take_succ_cons, List.mem_cons] at hr
            rcases hr with hr | hr
            · exact ⟨n, i, ps, hr⟩
            · exact htake r hr
          · simpa using hdrop

/-! ### C5: authentication method order and fallback -/

/-- **C5.** On a connection attempt that actually connects (stale or absent
handle, transport up, identity file readable where configured): with no
identity path the negotiator skips public-key entirely and goes straight to
the keyboard-interactive loop; with an identity path it attempts public-key
first — succeeding means no keyboard-interactive round at all, failing with
partial success and keyboard-interactive among the remaining methods means
entering the keyboard-interactive loop, and failing any other way means the
attempt ends with the remaining methods and partial-success flag, with no
keyboard-interactive round. -/
theorem ensureConnected_auth_order (p : SshParams) (cfg : SshConfig)
    (env : RemoteEnv) (s : SessionState) (answers : List MfaAnswer) (tid : Nat)
    (hneed : needsConnect s.handle = true) (hconn : env.connectOk = true)
    (hkey : env.keyLoadOk = true) :
    (p.identityPath = none →
      CallAction.pkAuth ∉ (ensureConnected p cfg env s answers tid).trace ∧
      CallAction.kiStart ∈ (ensureConnected p cfg env s answers tid).trace ∧
      (ensureConnected p cfg env s answers tid).result =
        (doKeyboardInteractive env.kiResponses answers).2) ∧
    (∀ path, p.identityPath = some path → env.pkResult = AuthResult.success →
      (ensureConnected p cfg env s answers tid).result = .ok () ∧
      CallAction.kiStart ∉ (ensureConnected p cfg env s answers tid).trace ∧
      (ensureConnected p cfg env s answers tid).transcript = []) ∧
    (∀ path rm ps, p.identityPath = some path →
      env.pkResult = AuthResult.failure rm ps →
      (ps && rm.contains MethodKind.keyboardInteractive) = true →
      CallAction.kiStart ∈ (ensureConnected p cfg env s answers tid).trace ∧
      (ensureConnected p cfg env s answers tid).result =
        (doKeyboardInteractive env.kiResponses answers).2) ∧
    (∀ path rm ps, p.identityPath = some path →
      env.pkResult = AuthResult.failure rm ps →
      (ps && rm.contains MethodKind.keyboardInteractive) = false →
      (ensureConnected p cfg env s answers tid).result =
        .error (.authRejected rm ps) ∧
      CallAction.kiStart ∉ (ensureConnected p cfg env s answers tid).trace ∧
      (ensureConnected p cfg env s answers tid).transcript = []) := by
  refine ⟨?_, ?_, ?_, ?_⟩
  · intro hid
    unfold ensureConnected
    rcases hres : (doKeyboardInteractive env.kiResponses answers).2 with e | u
    · simp [hneed, hconn, hid, hres]
    · simp [hneed, hconn, hid, hres]
  · intro path hid hpk
    unfold ensureConnected
    simp [hneed, hconn, hkey, hid, hpk]
  · intro path rm ps hid hpk hfall
    unfold ensureConnected
    rcases hres : (doKeyboardInteractive env.kiResponses answers).2 with e | u
    · simp [hneed, hconn, hkey, hid, hpk, hfall, hres]
    · simp [hneed, hconn, hkey, hid, hpk, hfall, hres]
  · intro path rm ps hid hpk hfall
    unfold ensureConnected
    simp [hneed, hconn, hkey, hid, hpk, hfall]

/-- **C5 witness.** A host record with no identity path, against a server
whose keyboard-interactive exchange succeeds immediately: public-key is
skipped and the keyboard-interactive loop runs and succeeds. -/
theorem ensureConnected_auth_order_witness :
    CallAction.pkAuth ∉
      (ensureConnected
        { addr := "h:22", username := "u", identityPath := none,
          kiSubmethods := none, keepaliveSecs := 5 }
        (mkConfig
          { addr := "h:22", username := "u", identityPath := none,
            kiSubmethods := none, keepaliveSecs := 5 })
        { connectOk := true, keyLoadOk := true, pkResult := AuthResult.success,
          kiResponses := [KiResponse.success], openOk := true, execOk := true,
          channelMsgs := [] }
        { handle := none, keepaliveTaskHandle := none, liveKeepaliveTasks := [] }
        [] 1).trace ∧
    CallAction.kiStart ∈
      (ensureConnected
        { addr := "h:22", username := "u", identityPath := none,
          kiSubmethods := none, keepaliveSecs := 5 }
        (mkConfig
          { addr := "h:22", username := "u", identityPath := none,
            kiSubmethods := none, keepaliveSecs := 5 })
        { connectOk := true, keyLoadOk := true, pkResult := AuthResult.success,
          kiResponses := [KiResponse.success], openOk := true, execOk := true,
          channelMsgs := [] }
        { handle := none, keepaliveTaskHandle := none, liveKeepaliveTasks := [] }
        [] 1).trace ∧
    (ensureConnected
        { addr := "h:22", username := "u", identityPath := none,
          kiSubmethods := none, keepaliveSecs := 5 }
        (mkConfig
          { addr := "h:22", username := "u", identityPath := none,
            kiSubmethods := none, keepaliveSecs := 5 })
        { connectOk := true, keyLoadOk := true, pkResult := AuthResult.success,
          kiResponses := [KiResponse.success], openOk := true, execOk := true,
          channelMsgs := [] }
        { handle := none, keepaliveTaskHandle := none, liveKeepaliveTasks := [] }
        [] 1).result =
      (doKeyboardInteractive [KiResponse.success] []).2 := by
  have h := ensureConnected_auth_order
    { addr := "h:22", username := "u", identityPath := none,
      kiSubmethods := none, keepaliveSecs := 5 }
    (mkConfig
      { addr := "h:22", username := "u", identityPath := none,
        kiSubmethods := none, keepaliveSecs := 5 })
    { connectOk := true, keyLoadOk := true, pkResult := AuthResult.success,
      kiResponses := [KiResponse.success], openOk := true, execOk := true,
      channelMsgs := [] }
    { handle := none, keepaliveTaskHandle := none, liveKeepaliveTasks := [] }
    [] 1 (by decide) (by decide) (by decide)
  exact h.1 rfl

/-! ### C6: reconnect, generation tokens and the keep-alive supervisor -/

/-- **C6 (amended).** `ensure_connected` is a strict no-op when a live,
non-closed handle exists; on an actual (re)connect that succeeds it stores a
fresh open handle and — the config always carrying a keep-alive interval —
spawns a new keep-alive task, whose join handle *overwrites* the stored one
while the task itself is merely added to the set of live tasks: nothing
cancels the superseded supervisor, and no generation token exists anywhere
in the session state. -/
theorem ensureConnected_noop_or_respawn (p : SshParams) (cfg : SshConfig)
    (env : RemoteEnv) (s : SessionState) (answers : List MfaAnswer) (tid : Nat) :
    (∀ h, s.handle = some h → h.closed = false →
      ensureConnected p cfg env s answers tid =
        { state := s, transcript := [], trace := [], result := .ok () }) ∧
    (needsConnect s.handle = true →
      (ensureConnected p cfg env s answers tid).result = .ok () →
      (ensureConnected p cfg env s answers tid).state.handle =
        some { closed := false } ∧
      (cfg.keepaliveInterval.isSome = true →
        (ensureConnected p cfg env s answers tid).state.keepaliveTaskHandle =
          some tid ∧
        (ensureConnected p cfg env s answers tid).state.liveKeepaliveTasks =
          s.liveKeepaliveTasks ++ [tid] ∧
        CallAction.spawnKeepalive ∈ (ensureConnected p cfg env s answers tid).trace)) := by
  constructor
  · intro h hs hclosed
    unfold ensureConnected
    simp [needsConnect, hs, hclosed]
  · intro hneed hok
    unfold ensureConnected at hok ⊢
    rcases hc : env.connectOk with _ | _
    · simp [hneed, hc] at hok
    · rcases hid : p.identityPath with _ | path
      · rcases hres : (doKeyboardInteractive env.kiResponses answers).2 with e | u
        · simp [hneed, hc, hid, hres] at hok
        · rcases hspawn : cfg.keepaliveInterval with _ | k <;>
            simp [hneed, hc, hid, hres, hspawn]
      · rcases hk : env.keyLoadOk with _ | _
        · simp [hneed, hc, hid, hk] at hok
        · rcases hpk : env.pkResult with _ | ⟨rm, ps⟩
          · rcases hspawn : cfg.keepaliveInterval with _ | k <;>
              simp [hneed, hc, hid, hk, hpk, hspawn]
          · rcases hfall : ps && rm.contains MethodKind.keyboardInteractive with _ | _
            · simp [hneed, hc, hid, hk, hpk, hfall] at hok
            · rcases hres : (doKeyboardInteractive env.kiResponses answers).2 with e | u
              · simp [hneed, hc, hid, hk, hpk, hfall, hres] at hok
              · rcases hspawn : cfg.keepaliveInterval with _ | k <;>
                  simp [hneed, hc, hid, hk, hpk, hfall, hres, hspawn]

/-- **C6 counterexample.** Connect, let the connection die, reconnect: the
second connect spawns a second keep-alive task ([1, 2] both live — the first
was never cancelled), and the superseded task's next step on the shared
current handle is `probe`, not `exit`: it acts on the *new* connection, so
it is not bound to any generation — indeed the session state has no
generation token to bind it to. -/
theorem reconnect_leaves_stale_keepalive :
    (ensureConnected
      { addr := "h:22", username := "u", identityPath := some "/k",
        kiSubmethods := none, keepaliveSecs := 5 }
      (mkConfig
        { addr := "h:22", username := "u", identityPath := some "/k",
          kiSubmethods := none, keepaliveSecs := 5 })
      { connectOk := true, keyLoadOk := true, pkResult := AuthResult.success,
        kiResponses := [], openOk := true, execOk := true, channelMsgs := [] }
      { handle := none, keepaliveTaskHandle := none, liveKeepaliveTasks := [] }
      [] 1).state =
      { handle := some { closed := false }, keepaliveTaskHandle := some 1,
        liveKeepaliveTasks := [1] } ∧
    (ensureConnected
      { addr := "h:22", username := "u", identityPath := some "/k",
        kiSubmethods := none, keepaliveSecs := 5 }
      (mkConfig
        { addr := "h:22", username := "u", identityPath := some "/k",
          kiSubmethods := none, keepaliveSecs := 5 })
      { connectOk := true, keyLoadOk := true, pkResult := AuthResult.success,
        kiResponses := [], openOk := true, execOk := true, channelMsgs := [] }
      { handle := some { closed := true }, keepaliveTaskHandle := some 1,
        liveKeepaliveTasks := [1] }
      [] 2).state =
      { handle := some { closed := false }, keepaliveTaskHandle := some 2,
        liveKeepaliveTasks := [1, 2] } ∧
    keepaliveStep (some { closed := false }) = KeepaliveAction.probe := by
  refine ⟨by decide, by decide, by decide⟩

/-! ### C8: the address resolver -/

/-- **C8.** `lookup_first_addr` returns exactly the first endpoint of the
single resolution it performs, and its failures are exactly the three
distinguished kinds: `DnsNotFound host` when the resolver reports the name
missing, `Resolve e` wrapping any other resolver error, `NoAddrs host` when
resolution returns an empty set. -/
theorem lookupFirstAddr_contract (host : String) (port : Nat)
    (resolved : Except ResolverError (List SockAddr)) :
    (∀ a, lookupFirstAddr host port resolved = .ok a ↔
      ∃ rest, resolved = .ok (a :: rest)) ∧
    (∀ err, lookupFirstAddr host port resolved = .error err →
      (err = NetError.dnsNotFound host ∧
        ∃ e, resolved = .error e ∧ e.kind = IoErrorKind.notFound) ∨
      (∃ e, err = NetError.resolve e ∧ resolved = .error e ∧
        e.kind = IoErrorKind.otherKind) ∨
      (err = NetError.noAddrs host ∧ resolved = .ok [])) := by
  rcases resolved with e | addrs
  · rcases hk : e.kind with _ | _
    · constructor
      · intro a; simp [lookupFirstAddr, hk]
      · intro err herr
        simp only [lookupFirstAddr, hk] at herr
        injection herr with h
        exact Or.inl ⟨h.symm, e, rfl, hk⟩
    · constructor
      · intro a; simp [lookupFirstAddr, hk]
      · intro err herr
        simp only [lookupFirstAddr, hk] at herr
        injection herr with h
        exact Or.inr (Or.inl ⟨e, h.symm, rfl, hk⟩)
  · rcases addrs with _ | ⟨a0, rest⟩
    · constructor
      · intro a; simp [lookupFirstAddr]
      · intro err herr
        simp only [lookupFirstAddr] at herr
        injection herr with h
        exact Or.inr (Or.inr ⟨h.symm, rfl⟩)
    · constructor
      · intro a
        simp only [lookupFirstAddr]
        constructor
        · intro h; injection h with h; exact ⟨rest, by rw [h]⟩
        · rintro ⟨rest', h⟩; injection h with h; injection h with h1 h2
          rw [h1]
      · intro err herr; simp [lookupFirstAddr] at herr

/-! ### C9: the CLI exit status -/

/-- The loop ignores passthrough items. -/
theorem runLs_passthrough (pre rest : List LsItem) (sends : List Bool)
    (h : ∀ it ∈ pre, isPassthroughItem it = true) :
    runLs (pre ++ rest) sends = runLs rest sends := by
  induction pre with
  | nil => rfl
  | cons it pre ih =>
    have hit := h it (List.mem_cons_self it pre)
    have hpre : ∀ x ∈ pre, isPassthroughItem x = true :=
      fun x hx => h x (List.mem_cons_of_mem it hx)
    rcases it with ev | st
    · rcases ev with _ | ev
      · simpa [runLs] using ih hpre
      · rcases ev with d | d | c | mp | msg
        · simpa [runLs] using ih hpre
        · simpa [runLs] using ih hpre
        · simp [isPassthroughItem] at hit
        · simp [isPassthroughItem] at hit
        · simp [isPassthroughItem] at hit
    · simp [isPassthroughItem] at hit

/-- **C9 (amended).** The CLI's process exit status is 0 for a terminal
`ExitCode 0` (and for a stream that ends with no terminal event), and 1 —
never the remote value itself — for any nonzero terminal `ExitCode` as well
as for a terminal `Error` event: `send_ls` converts a nonzero code into an
`anyhow` error ("received exit code"), and a Rust `main` returning `Err`
exits with status 1. -/
theorem cliExitCode_of_terminal_event (pre post : List LsItem)
    (sends : List Bool) (c : Int) (m : String)
    (hpre : ∀ it ∈ pre, isPassthroughItem it = true) :
    cliExitCode (pre ++ LsItem.ok (some (StreamEvent.exitCode c)) :: post) sends =
      (if c = 0 then 0 else 1) ∧
    cliExitCode (pre ++ LsItem.ok (some (StreamEvent.error m)) :: post) sends = 1 := by
  constructor
  · unfold cliExitCode
    rw [runLs_passthrough pre _ sends hpre]
    by_cases hc : c = 0 <;> simp [runLs, sendLsReturn, mainExitStatus, hc]
  · unfold cliExitCode
    rw [runLs_passthrough pre _ sends hpre]
    simp [runLs, sendLsReturn, mainExitStatus]

/-- **C9 (amended) witness** at a concrete stream: some stdout, then remote
exit code 7 → process exit 1; an `Error` event → process exit 1. -/
theorem cliExitCode_of_terminal_event_witness :
    cliExitCode ([LsItem.ok (some (StreamEvent.stdout [104]))] ++
        LsItem.ok (some (StreamEvent.exitCode 7)) :: []) [] =
      (if (7 : Int) = 0 then 0 else 1) ∧
    cliExitCode ([LsItem.ok (some (StreamEvent.stdout [104]))] ++
        LsItem.ok (some (StreamEvent.error "boom")) :: []) [] = 1 :=
  cliExitCode_of_terminal_event [LsItem.ok (some (StreamEvent.stdout [104]))]
    [] [] 7 "boom" (by decide)

/-- **C9 counterexample.** A terminal `ExitCode 3` makes the CLI process
exit with status 1, not with the remote value 3. -/
theorem cliExitCode_not_remote_value :
    cliExitCode [LsItem.ok (some (StreamEvent.exitCode 3))] [] = 1 ∧
    (1 : Int) ≠ 3 := by
  refine ⟨by decide, by decide⟩

/-! ### C7: serialization of concurrent execute calls -/

theorem tagTrace_append (t : Tid) (l1 l2 : List CallAction) :
    tagTrace t (l1 ++ l2) = tagTrace t l1 ++ tagTrace t l2 :=
  List.map_append _ _ _

/-- A merge with an empty left side is the right side. -/
theorem merge_nil_left : ∀ {ys zs : List (Tid × CallAction)},
    Merge [] ys zs → zs = ys
  | _, _, Merge.nil => rfl
  | _, _, Merge.right h => by rw [merge_nil_left h]

/-- A merge into the empty schedule has two empty sides. -/
theorem merge_to_nil : ∀ {xs ys : List (Tid × CallAction)},
    Merge xs ys [] → xs = [] ∧ ys = []
  | _, _, Merge.nil => ⟨rfl, rfl⟩

/-- Merging is symmetric. -/
theorem merge_comm : ∀ {xs ys zs : List (Tid × CallAction)},
    Merge xs ys zs → Merge ys xs zs
  | _, _, _, Merge.nil => Merge.nil
  | _, _, _, Merge.left h => Merge.right (merge_comm h)
  | _, _, _, Merge.right h => Merge.left (merge_comm h)

/-- Running both traces back to back is one admissible merge. -/
theorem merge_append : ∀ (xs ys : List (Tid × CallAction)), Merge xs ys (xs ++ ys)
  | [], [] => Merge.nil
  | [], _ :: ys => Merge.right (merge_append [] ys)
  | _ :: xs, ys => Merge.left (merge_append xs ys)

/-- A list of complete critical sections with an empty flattening is empty. -/
theorem eq_nil_of_flatten_nil_CS (l : List (List CallAction))
    (hcs : ∀ cs ∈ l, IsCS cs) (h : l.flatten = []) : l = [] := by
  cases l with
  | nil => rfl
  | cons cs l =>
    obtain ⟨mid, hmid, -, -⟩ := hcs cs (List.mem_cons_self cs l)
    rw [List.flatten_cons, hmid] at h
    simp at h

/-- Tagging then flattening single-caller blocks is tagging the flattening. -/
theorem flattenTagged_map (t : Tid) (cs : List (List CallAction)) :
    flattenTagged (cs.map fun c => (t, c)) = tagTrace t cs.flatten := by
  induction cs with
  | nil => rfl
  | cons c cs ih =>
    simp only [List.map_cons, flattenTagged, List.flatMap_cons, List.flatten_cons,
      tagTrace_append]
    simp only [flattenTagged] at ih
    rw [ih]

theorem blockMerge_all_right (csB : List (List CallAction)) :
    BlockMerge [] csB (csB.map fun c => (Tid.b, c)) := by
  induction csB with
  | nil => exact BlockMerge.nil
  | cons c csB ih => exact BlockMerge.right ih

theorem blockMerge_all_left (csA : List (List CallAction)) :
    BlockMerge csA [] (csA.map fun c => (Tid.a, c)) := by
  induction csA with
  | nil => exact BlockMerge.nil
  | cons c csA ih => exact BlockMerge.left ih

/-- The tagged schedule of a sequence of critical sections headed by
`lockAcquire :: mid ++ [lockRelease]`. -/
theorem tagTrace_CS_cons (t : Tid) (mid : List CallAction)
    (rest : List (List CallAction)) :
    tagTrace t (((CallAction.lockAcquire :: (mid ++ [CallAction.lockRelease])) ::
        rest).flatten) =
      (t, CallAction.lockAcquire) ::
        tagTrace t (mid ++ CallAction.lockRelease :: rest.flatten) := by
  simp [tagTrace, List.flatten_cons, List.append_assoc]

/-- While a caller owns the mutex, the schedule can only take that caller's
steps: the other caller's pending step is an acquire, inadmissible until the
owner's release.  The owner's section therefore runs contiguously up to and
including its release. -/
theorem lockValid_run_section (ta tb : Tid) (restA : List CallAction)
    (vs : List (Tid × CallAction))
    (hvs : vs = [] ∨ ∃ vs', vs = (tb, CallAction.lockAcquire) :: vs') :
    ∀ mid : List CallAction,
      CallAction.lockAcquire ∉ mid → CallAction.lockRelease ∉ mid →
      ∀ itl, Merge (tagTrace ta (mid ++ CallAction.lockRelease :: restA)) vs itl →
        LockValid (some ta) itl →
        ∃ itl', itl = tagTrace ta (mid ++ [CallAction.lockRelease]) ++ itl' ∧
          Merge (tagTrace ta restA) vs itl' ∧
          LockValid none itl' := by
  intro mid
  induction mid with
  | nil =>
    intro _ _ itl hm hlv
    rcases hvs with rfl | ⟨vs', rfl⟩
    · cases hm with
      | left h =>
        cases hlv with
        | rel _ _ hnone => exact ⟨_, rfl, h, hnone⟩
        | oth _ _ _ _ _ hne _ => exact absurd rfl hne
    · cases hm with
      | left h =>
        cases hlv with
        | rel _ _ hnone => exact ⟨_, rfl, h, hnone⟩
        | oth _ _ _ _ _ hne _ => exact absurd rfl hne
      | right h =>
        cases hlv with
        | oth _ _ _ _ hne _ _ => exact absurd rfl hne
  | cons m mid ih =>
    intro hacq hrel itl hm hlv
    have hmacq : m ≠ CallAction.lockAcquire :=
      fun he => hacq (he ▸ List.mem_cons_self m mid)
    have hmrel : m ≠ CallAction.lockRelease :=
      fun he => hrel (he ▸ List.mem_cons_self m mid)
    have hacq' : CallAction.lockAcquire ∉ mid :=
      fun hc => hacq (List.mem_cons_of_mem m hc)
    have hrel' : CallAction.lockRelease ∉ mid :=
      fun hc => hrel (List.mem_cons_of_mem m hc)
    have hstep : ∀ zs, Merge (tagTrace ta (mid ++ CallAction.lockRelease :: restA))
        vs zs → LockValid (some ta) zs →
        ∃ itl', (m :: mid ++ [CallAction.lockRelease] : List CallAction) ≠ [] ∧
          zs = tagTrace ta (mid ++ [CallAction.lockRelease]) ++ itl' ∧
          Merge (tagTrace ta restA) vs itl' ∧ LockValid none itl' := by
      intro zs hm' hlv'
      obtain ⟨itl', h1, h2, h3⟩ := ih hacq' hrel' zs hm' hlv'
      exact ⟨itl', by simp, h1, h2, h3⟩
    rcases hvs with rfl | ⟨vs', rfl⟩
    · cases hm with
      | left h =>
        cases hlv with
        | rel _ _ _ => exact absurd rfl hmrel
        | oth _ _ _ _ _ _ htail =>
          obtain ⟨itl', -, heq, hm', hlv'⟩ := hstep _ h htail
          refine ⟨itl', ?_, hm', hlv'⟩
          simp only [List.cons_append, tagTrace, List.map_cons, heq]
    · cases hm with
      | left h =>
        cases hlv with
        | rel _ _ _ => exact absurd rfl hmrel
        | oth _ _ _ _ _ _ htail =>
          obtain ⟨itl', -, heq, hm', hlv'⟩ := hstep _ h htail
          refine ⟨itl', ?_, hm', hlv'⟩
          simp only [List.cons_append, tagTrace, List.map_cons, heq]
      | right h =>
        cases hlv with
        | oth _ _ _ _ hne _ _ => exact absurd rfl hne

/-- **Serialization.**  Any admissible interleaving of two callers, each a
sequence of complete critical sections, is a sequential arrangement of whole
critical sections: sections never interleave at action granularity. -/
theorem lockValid_merge_serializes :
    ∀ (n : Nat) (csA csB : List (List CallAction)) (itl : List (Tid × CallAction)),
      itl.length ≤ n →
      (∀ cs ∈ csA, IsCS cs) → (∀ cs ∈ csB, IsCS cs) →
      Merge (tagTrace Tid.a csA.flatten) (tagTrace Tid.b csB.flatten) itl →
      LockValid none itl →
      ∃ bs, BlockMerge csA csB bs ∧ itl = flattenTagged bs := by
  intro n
  induction n with
  | zero =>
    intro csA csB itl hlen hcsA hcsB hm _
    have hnil : itl = [] := List.eq_nil_of_length_eq_zero (Nat.le_zero.mp hlen)
    subst hnil
    obtain ⟨hA, hB⟩ := merge_to_nil hm
    have hA' : csA = [] := by
      apply eq_nil_of_flatten_nil_CS csA hcsA
      simpa [tagTrace] using hA
    have hB' : csB = [] := by
      apply eq_nil_of_flatten_nil_CS csB hcsB
      simpa [tagTrace] using hB
    subst hA'; subst hB'
    exact ⟨[], BlockMerge.nil, rfl⟩
  | succ n ihn =>
    intro csA csB itl hlen hcsA hcsB hm hlv
    cases hAc : csA with
    | nil =>
      rw [hAc] at hm
      simp only [List.flatten_nil, tagTrace, List.map_nil] at hm
      have := merge_nil_left hm
      subst this
      exact ⟨csB.map fun c => (Tid.b, c), blockMerge_all_right csB,
        (flattenTagged_map Tid.b csB).symm⟩
    | cons csa csA' =>
      cases hBc : csB with
      | nil =>
        rw [hBc] at hm
        simp only [List.flatten_nil, tagTrace, List.map_nil] at hm
        have := merge_nil_left (merge_comm hm)
        subst this
        rw [hAc]
        exact ⟨(csa :: csA').map fun c => (Tid.a, c),
          hAc ▸ blockMerge_all_left (csa :: csA'),
          (flattenTagged_map Tid.a (csa :: csA')).symm⟩
      | cons csb csB' =>
        subst hAc; subst hBc
        obtain ⟨midA, hmidA, hAacq, hArel⟩ := hcsA csa (List.mem_cons_self csa csA')
        obtain ⟨midB, hmidB, hBacq, hBrel⟩ := hcsB csb (List.mem_cons_self csb csB')
        have hcsA' : ∀ cs ∈ csA', IsCS cs :=
          fun cs hc => hcsA cs (List.mem_cons_of_mem csa hc)
        have hcsB' : ∀ cs ∈ csB', IsCS cs :=
          fun cs hc => hcsB cs (List.mem_cons_of_mem csb hc)
        have hAeq : tagTrace Tid.a ((csa :: csA').flatten) =
            (Tid.a, CallAction.lockAcquire) ::
              tagTrace Tid.a (midA ++ CallAction.lockRelease :: csA'.flatten) := by
          rw [hmidA]; exact tagTrace_CS_cons Tid.a midA csA'
        have hBeq : tagTrace Tid.b ((csb :: csB').flatten) =
            (Tid.b, CallAction.lockAcquire) ::
              tagTrace Tid.b (midB ++ CallAction.lockRelease :: csB'.flatten) := by
          rw [hmidB]; exact tagTrace_CS_cons Tid.b midB csB'
        rw [hAeq, hBeq] at hm
        cases hm with
        | left h =>
          rename_i zs
          cases hlv with
          | oth _ _ _ _ hne _ _ => exact absurd rfl hne
          | acq _ _ howner =>
            obtain ⟨itl', heq, hm', hlv'⟩ :=
              lockValid_run_section Tid.a Tid.b csA'.flatten _
                (Or.inr ⟨_, rfl⟩) midA hAacq hArel zs h howner
            rw [← hBeq] at hm'
            have hlt : itl'.length ≤ n := by
              have h1 : zs.length ≤ n := by
                simpa using Nat.le_of_succ_le_succ (by simpa using hlen)
              have h2 : itl'.length ≤ zs.length := by
                rw [heq]; simp
              omega
            obtain ⟨bs', hbm', hflat'⟩ :=
              ihn csA' (csb :: csB') itl' hlt hcsA' hcsB hm' hlv'
            refine ⟨(Tid.a, csa) :: bs', BlockMerge.left hbm', ?_⟩
            show (Tid.a, CallAction.lockAcquire) :: zs =
              flattenTagged ((Tid.a, csa) :: bs')
            rw [heq, hflat', hmidA]
            simp [flattenTagged, tagTrace, List.flatMap_cons, List.append_assoc]
        | right h =>
          rename_i zs
          cases hlv with
          | oth _ _ _ _ hne _ _ => exact absurd rfl hne
          | acq _ _ howner =>
            obtain ⟨itl', heq, hm', hlv'⟩ :=
              lockValid_run_section Tid.b Tid.a csB'.flatten _
                (Or.inr ⟨_, rfl⟩) midB hBacq hBrel zs (merge_comm h) howner
            have hm'' := merge_comm hm'
            rw [← hAeq] at hm''
            have hlt : itl'.length ≤ n := by
              have h1 : zs.length ≤ n := by
                simpa using Nat.le_of_succ_le_succ (by simpa using hlen)
              have h2 : itl'.length ≤ zs.length := by
                rw [heq]; simp
              omega
            obtain ⟨bs', hbm', hflat'⟩ :=
              ihn (csa :: csA') csB' itl' hlt hcsA hcsB' hm'' hlv'
            refine ⟨(Tid.b, csb) :: bs', BlockMerge.right hbm', ?_⟩
            show (Tid.b, CallAction.lockAcquire) :: zs =
              flattenTagged ((Tid.b, csb) :: bs')
            rw [heq, hflat', hmidB]
            simp [flattenTagged, tagTrace, List.flatMap_cons, List.append_assoc]

/-- A concrete host record with an identity key, for the concurrency
scenario. -/
def demoParams : SshParams :=
  { addr := "h:22", username := "u", identityPath := some "/k",
    kiSubmethods := none, keepaliveSecs := 5 }

/-- A concrete healthy remote: connect succeeds, public-key auth succeeds,
the remote runs the command and reports exit status 0 then closes. -/
def demoEnv : RemoteEnv :=
  { connectOk := true, keyLoadOk := true, pkResult := AuthResult.success,
    kiResponses := [], openOk := true, execOk := true,
    channelMsgs := [ChannelMsg.exitStatus 0, ChannelMsg.close] }

/-- A session that has never connected. -/
def freshSession : SessionState :=
  { handle := none, keepaliveTaskHandle := none, liveKeepaliveTasks := [] }

/-- The connect-and-authenticate critical section of a call in the demo
scenario. -/
def authSection : List CallAction :=
  [CallAction.lockAcquire, CallAction.connect, CallAction.loadKey,
    CallAction.pkAuth, CallAction.spawnKeepalive, CallAction.lockRelease]

/-- The execution critical section of a call in the demo scenario. -/
def execSection : List CallAction :=
  [CallAction.lockAcquire, CallAction.openSession, CallAction.execRequest,
    CallAction.chanRead, CallAction.chanRead, CallAction.chanEof,
    CallAction.chanClose, CallAction.lockRelease]

/-- **C7 counterexample.** The session mutex is *not* held across the whole
connect-authenticate-execute sequence: a successful call's trace releases
the lock after the authentication section (`pkAuth` before the release) and
re-acquires it for the execution section (`openSession` after), acquiring
the lock twice in total — so another call may run in the gap between a
call's authentication and its execution. -/
theorem exec_lock_released_between_auth_and_exec :
    (execWhitelisted demoParams (mkConfig demoParams) demoEnv freshSession
        "ls" [] 1).trace = authSection ++ execSection ∧
    (execWhitelisted demoParams (mkConfig demoParams) demoEnv freshSession
        "ls" [] 1).trace.count CallAction.lockAcquire = 2 ∧
    ∃ l1 l2, (execWhitelisted demoParams (mkConfig demoParams) demoEnv
        freshSession "ls" [] 1).trace = l1 ++ CallAction.lockRelease :: l2 ∧
      CallAction.pkAuth ∈ l1 ∧ CallAction.openSession ∈ l2 := by
  refine ⟨by decide, by decide,
    [CallAction.lockAcquire, CallAction.connect, CallAction.loadKey,
      CallAction.pkAuth, CallAction.spawnKeepalive],
    [CallAction.lockAcquire, CallAction.openSession, CallAction.execRequest,
      CallAction.chanRead, CallAction.chanRead, CallAction.chanEof,
      CallAction.chanClose, CallAction.lockRelease],
    by decide, by decide, by decide⟩

/-- **C7 (amended).** Although the lock is released between the two
sections, each of the connect-authenticate section and the execution section
is a complete critical section of the session mutex, so any admissible
schedule of two concurrent `exec_whitelisted` calls on the same session is a
sequential arrangement of whole sections: at most one
authentication-or-execution section is in flight at any instant, and in
particular the two calls' execution windows never overlap. -/
theorem exec_calls_fully_serialized (itl : List (Tid × CallAction))
    (hm : Merge
      (tagTrace Tid.a (execWhitelisted demoParams (mkConfig demoParams) demoEnv
        freshSession "ls" [] 1).trace)
      (tagTrace Tid.b (execWhitelisted demoParams (mkConfig demoParams) demoEnv
        freshSession "uname -a" [] 2).trace) itl)
    (hlv : LockValid none itl) :
    ∃ bs, BlockMerge [authSection, execSection] [authSection, execSection] bs ∧
      itl = flattenTagged bs := by
  have hA : (execWhitelisted demoParams (mkConfig demoParams) demoEnv
      freshSession "ls" [] 1).trace =
      ([authSection, execSection] : List (List CallAction)).flatten := by decide
  have hB : (execWhitelisted demoParams (mkConfig demoParams) demoEnv
      freshSession "uname -a" [] 2).trace =
      ([authSection, execSection] : List (List CallAction)).flatten := by decide
  rw [hA, hB] at hm
  have hcs : ∀ cs ∈ ([authSection, execSection] : List (List CallAction)), IsCS cs := by
    intro cs hc
    simp only [List.mem_cons, List.mem_singleton] at hc
    rcases hc with rfl | rfl | hfalse
    · exact ⟨[CallAction.connect, CallAction.loadKey, CallAction.pkAuth,
        CallAction.spawnKeepalive], rfl, by decide, by decide⟩
    · exact ⟨[CallAction.openSession, CallAction.execRequest,
        CallAction.chanRead, CallAction.chanRead, CallAction.chanEof,
        CallAction.chanClose], rfl, by decide, by decide⟩
    · exact absurd hfalse (by simp)
  exact lockValid_merge_serializes itl.length [authSection, execSection]
    [authSection, execSection] itl le_rfl hcs hcs hm hlv

/-- Executable admissibility check for a concrete schedule. -/
def lockValidB : Option Tid → List (Tid × CallAction) → Bool
  | _, [] => true
  | o, (t, x) :: rest =>
    if x = CallAction.lockAcquire then
      match o with
      | none => lockValidB (some t) rest
      | some _ => false
    else if x = CallAction.lockRelease then
      match o with
      | some u => decide (u = t) && lockValidB none rest
      | none => false
    else lockValidB o rest

/-- Soundness of the executable admissibility check. -/
theorem lockValid_of_lockValidB :
    ∀ (l : List (Tid × CallAction)) (o : Option Tid),
      lockValidB o l = true → LockValid o l := by
  intro l
  induction l with
  | nil => intro o _; exact LockValid.nil o
  | cons p rest ih =>
    intro o h
    obtain ⟨t, x⟩ := p
    by_cases hx : x = CallAction.lockAcquire
    · subst hx
      cases o with
      | none =>
        simp only [lockValidB, if_pos rfl] at h
        exact LockValid.acq t rest (ih _ h)
      | some u => simp [lockValidB] at h
    · by_cases hx2 : x = CallAction.lockRelease
      · subst hx2
        cases o with
        | none => simp [lockValidB, hx] at h
        | some u =>
          simp [lockValidB, hx] at h
          obtain ⟨rfl, h2⟩ := h
          exact LockValid.rel _ _ (ih _ h2)
      · simp only [lockValidB, if_neg hx, if_neg hx2] at h
        exact LockValid.oth t x o rest hx hx2 (ih _ h)

/-- **C7 (amended) witness.** The sequential schedule — caller `a`'s whole
call, then caller `b`'s — is admissible and serializes into whole
sections. -/
theorem exec_calls_fully_serialized_witness :
    ∃ bs, BlockMerge [authSection, execSection] [authSection, execSection] bs ∧
      tagTrace Tid.a (execWhitelisted demoParams (mkConfig demoParams) demoEnv
          freshSession "ls" [] 1).trace ++
        tagTrace Tid.b (execWhitelisted demoParams (mkConfig demoParams) demoEnv
          freshSession "uname -a" [] 2).trace = flattenTagged bs :=
  exec_calls_fully_serialized _ (merge_append _ _)
    (lockValid_of_lockValidB _ none (by decide))
